import Mathlib

/-!
Shallow embedding of `gym_flock/envs/mapping_local.py` (class `MappingLocalEnv`).

Conventions of the embedding:
* numpy float arrays become lists of rationals (`List ℚ`, `List (ℚ × ℚ)`, ...);
  real-valued results that genuinely need a square root (`np.linalg.norm`) live in `ℝ`;
* the agent state matrix `self.x` (shape `[n_agents, 4]`) becomes `List Agent`
  with one record per row;
* fallible numpy operations (`np.argpartition` with an out-of-bounds `kth`,
  boolean-mask gathering followed by `reshape((-1, 2))` on an odd-length
  result) are modelled with `Option`: `none` is a raised exception;
* `np.inf` on the diagonal of the pairwise distance matrix is modelled with
  `WithTop ℚ`;
* the global numpy random stream used by `reset` (`np.random.uniform`) is an
  explicit argument `g : ℕ → ℚ` listing the unit draws in the order they are
  consumed; the `RandomState` created by `seed` is the `np_random` field.
-/

namespace GymFlock

/-- One row of the agent state matrix `self.x`: 2D position and velocity,
`nx_system = 4` entries `(px, py, vx, vy)`. -/
structure Agent where
  px : ℚ
  py : ℚ
  vx : ℚ
  vy : ℚ
deriving DecidableEq

instance : Inhabited Agent := ⟨⟨0, 0, 0, 0⟩⟩

/-- The configuration record read by `params_from_cfg` (`args.getint` /
`args.getfloat` accesses). -/
structure Cfg where
  n_agents : ℕ
  nearest_agents : ℕ
  nearest_targets : ℕ
  action_scalar : ℚ
  obs_radius : ℚ
  v_max : ℚ
  dt : ℚ

/-- The mutable state of a `MappingLocalEnv` instance (the `self.*` attributes
that later computations read).  The cached per-step products of
`compute_helpers` (`adj_mat`, `state_values`, ...) are returned separately in
`Computed`. -/
structure Env where
  n_agents : ℕ
  nearest_agents : ℕ
  nearest_targets : ℕ
  n_features : ℕ
  dt : ℚ
  v_max : ℚ
  max_accel : ℚ
  action_scalar : ℚ
  obs_rad : ℚ
  obs_rad2 : ℚ
  px_max : ℚ
  py_max : ℚ
  mean_pooling : Bool
  np_random : ℕ → ℚ
  x : List Agent
  target_x : List (ℚ × ℚ)
  target_unobserved : List (Bool × Bool)

/-- Squaring helper: the code forms `np.multiply(d, d)`. -/
def sq (a : ℚ) : ℚ := a * a

/-- `np.clip(v, a_min, a_max)` componentwise on scalars. -/
def clip (lo hi v : ℚ) : ℚ := min (max v lo) hi

/-- `np.random.uniform(low, high)` for one scalar, given the unit draw
`u ∈ [0, 1)` taken from the stream. -/
def uniformDraw (lo hi u : ℚ) : ℚ := lo + (hi - lo) * u

/-- `np.linspace(lo, hi, n)`: `n` evenly spaced values from `lo` to `hi`
inclusive (a single value is `lo`). -/
def linspace (lo hi : ℚ) (n : ℕ) : List ℚ :=
  if n = 1 then [lo]
  else (List.range n).map (fun i => lo + (hi - lo) * i / ((n : ℚ) - 1))

/-- The targets built in `__init__` / `params_from_cfg`:
`tx, ty = np.meshgrid(x, y)` followed by the column reshapes and
`np.stack((tx, ty), axis=1).reshape((-1, 2))`.  Row-major over the meshgrid,
target `i*n + j` sits at `(x[j], y[i])`. -/
def targetGrid (n : ℕ) : List (ℚ × ℚ) :=
  let xs := linspace (-(n : ℚ)) (n : ℚ) n
  let ys := linspace (-(n : ℚ)) (n : ℚ) n
  (List.range n).flatMap (fun i => (List.range n).map (fun j => (xs.getD j 0, ys.getD i 0)))

/-- Boolean-mask gathering `self.target_x[self.target_unobserved]`: numpy
flattens the `[n², 2]` array row-major and keeps the entries whose mask bit is
`True`. -/
def maskedFlat : List (ℚ × ℚ) → List (Bool × Bool) → List ℚ
  | [], _ => []
  | _, [] => []
  | t :: tx, m :: ms =>
    ((if m.1 then [t.1] else []) ++ (if m.2 then [t.2] else [])) ++ maskedFlat tx ms

/-- `reshape((-1, 2))` of a flat list: consecutive pairs; numpy raises when the
length is odd, hence `Option`. -/
def pairUp : List ℚ → Option (List (ℚ × ℚ))
  | [] => some []
  | [_] => none
  | a :: b :: rest => (pairUp rest).map (fun l => (a, b) :: l)

/-- Boolean-mask assignment `self.target_unobserved[self.target_unobserved] = vals`:
walk the `[n², 2]` array row-major, replacing each `True` entry with the next
value of `vals` and leaving `False` entries untouched.  (In every use below
`vals` has exactly as many entries as the mask has `True` bits.) -/
def setMasked : List (Bool × Bool) → List Bool → List (Bool × Bool)
  | [], _ => []
  | p :: rest, vals =>
    if p.1 then
      if p.2 then (vals.headD false, vals.tail.headD false) :: setMasked rest vals.tail.tail
      else (vals.headD false, p.2) :: setMasked rest vals.tail
    else
      if p.2 then (p.1, vals.headD false) :: setMasked rest vals.tail
      else p :: setMasked rest vals

/-- `np.sum(self.target_unobserved)` on the boolean mask: the number of `True`
entries (both components counted). -/
def countTrue (m : List (Bool × Bool)) : ℕ := (m.map (fun p => p.1.toNat + p.2.toNat)).sum

/-- Well-formedness of the mask: the two entries of each target's row agree. -/
def MaskWF (m : List (Bool × Bool)) : Prop := ∀ p ∈ m, p.1 = p.2

instance (m : List (Bool × Bool)) : Decidable (MaskWF m) := by
  unfold MaskWF; exact inferInstance

/-- Pointwise comparison of masks: every `true` of the first is a `true` of the
second (entries only ever flip `true → false`). -/
def maskLe (m' m : List (Bool × Bool)) : Prop :=
  List.Forall₂ (fun p q => (p.1 = true → q.1 = true) ∧ (p.2 = true → q.2 = true)) m' m

/-- Squared distance of agent `a` to the 2D point `g` (one entry of
`self.r2_targets`). -/
def r2Target (a : Agent) (g : ℚ × ℚ) : ℚ := sq (a.px - g.1) + sq (a.py - g.2)

/-- Sort key for index-stable k-smallest selection: strictly smaller key first,
ties broken by index.  Models one valid outcome of `np.argpartition(_, range(k))`
(and of `np.argsort`), whose k smallest are in sorted order with unspecified
tie order. -/
def rankLe {α : Type} [LinearOrder α] (key : ℕ → α) (a b : ℕ) : Prop :=
  key a < key b ∨ (key a = key b ∧ a ≤ b)

instance {α : Type} [LinearOrder α] (key : ℕ → α) : DecidableRel (rankLe key) := fun a b => by
  unfold rankLe; exact inferInstance

instance {α : Type} [LinearOrder α] (key : ℕ → α) : IsTotal ℕ (rankLe key) := by
  constructor
  intro a b
  rcases lt_trichotomy (key a) (key b) with h | h | h
  · exact Or.inl (Or.inl h)
  · rcases le_total a b with h' | h'
    · exact Or.inl (Or.inr ⟨h, h'⟩)
    · exact Or.inr (Or.inr ⟨h.symm, h'⟩)
  · exact Or.inr (Or.inl h)

instance {α : Type} [LinearOrder α] (key : ℕ → α) : IsTrans ℕ (rankLe key) := by
  constructor
  intro a b c hab hbc
  rcases hab with h1 | ⟨h1, h1'⟩
  · rcases hbc with h2 | ⟨h2, _⟩
    · exact Or.inl (h1.trans h2)
    · exact Or.inl (h2 ▸ h1)
  · rcases hbc with h2 | ⟨h2, h2'⟩
    · exact Or.inl (h1 ▸ h2)
    · exact Or.inr ⟨h1.trans h2, h1'.trans h2'⟩

/-- Pairwise squared position distance between agents `i` and `j` with the
diagonal filled by `np.fill_diagonal(self.r2, np.Inf)`: `⊤` on the diagonal,
the finite squared distance elsewhere. -/
def neighborKey (x : List Agent) (i j : ℕ) : WithTop ℚ :=
  if i = j then ⊤
  else ((sq ((x.getD i default).px - (x.getD j default).px)
    + sq ((x.getD i default).py - (x.getD j default).py) : ℚ) : WithTop ℚ)

/-- Row `i` of `np.argpartition(self.r2, range(self.nearest_agents), axis=1)`
extended to a full index-stable sort: all agent indices ordered by squared
distance to agent `i` (self last, its distance being `⊤`). -/
def sortedNeighbors (x : List Agent) (i : ℕ) : List ℕ :=
  List.insertionSort (rankLe (neighborKey x i)) (List.range x.length)

/-- Row `i` of `nearest`: the first `nearest_agents` columns of the
partitioned index array. -/
def selectedNeighbors (x : List Agent) (k i : ℕ) : List ℕ :=
  (sortedNeighbors x i).take k

/-- All indices written by the loop `self.adj_mat[:, nearest[:, i]] = 1.0`:
numpy basic+advanced indexing assigns the *entire columns* `nearest[:, i]`
(every row), so after the loop a column is 1 exactly when it appears among
some agent's selected neighbors. -/
def nearestUnion (x : List Agent) (k : ℕ) : List ℕ :=
  (List.range x.length).flatMap (fun a => selectedNeighbors x k a)

/-- Entry `(i, j)` of `self.adj_mat` after the column assignments and
`np.fill_diagonal(self.adj_mat, 0.0)`. -/
def adjEntry (x : List Agent) (k i j : ℕ) : ℚ :=
  if i ≠ j ∧ j ∈ nearestUnion x k then 1 else 0

/-- Row sum `n_neighbors` of `self.adj_mat`, with zero rows replaced by 1
(`n_neighbors[n_neighbors == 0] = 1`). -/
def nNeighbors (x : List Agent) (k i : ℕ) : ℚ :=
  ((List.range x.length).map (fun j => adjEntry x k i j)).sum

/-- Entry `(i, j)` of `self.adj_mat_mean = self.adj_mat / n_neighbors`. -/
def adjMeanEntry (x : List Agent) (k i j : ℕ) : ℚ :=
  adjEntry x k i j / (if nNeighbors x k i = 0 then 1 else nNeighbors x k i)

/-- Relative state of agent `a` minus agent `b`: one 4-entry block of
`self.diff` as gathered into `obs_neigh`. -/
def diff4 (a b : Agent) : List ℚ := [a.px - b.px, a.py - b.py, a.vx - b.vx, a.vy - b.vy]

/-- Row `i` of `obs_neigh`: the 4-entry relative-state blocks of the selected
neighbors, closest first (the loop writes block `i` from `nearest[:, i]`;
with `nearest_agents ≤ n_agents` the `np.zeros` initialization is fully
overwritten). -/
def obsNeigh (x : List Agent) (k i : ℕ) : List ℚ :=
  (selectedNeighbors x k i).flatMap (fun j => diff4 (x.getD i default) (x.getD j default))

/-- Squared distance sort key of agent `a` over the gathered (still
unobserved) target list `gs`. -/
def targetKey (a : Agent) (gs : List (ℚ × ℚ)) (j : ℕ) : ℚ := r2Target a (gs.getD j (0, 0))

/-- Row of `np.argsort(self.r2_targets, axis=1)` for agent `a` (index-stable
full sort of the gathered targets by squared distance). -/
def sortedTargets (a : Agent) (gs : List (ℚ × ℚ)) : List ℕ :=
  List.insertionSort (rankLe (targetKey a gs)) (List.range gs.length)

/-- Row of `nearest_targets`: a full `argsort` when fewer gathered targets
than `nearest_targets` remain, else the first `nearest_targets` columns of the
partitioned index array. -/
def nearestTargetsIdx (a : Agent) (gs : List (ℚ × ℚ)) (k : ℕ) : List ℕ :=
  if gs.length < k then sortedTargets a gs else (sortedTargets a gs).take k

/-- One 2-entry block of `self.diff_targets` as gathered into `obs_target`:
agent position minus target position. -/
def targetPairFeature (a : Agent) (g : ℚ × ℚ) : List ℚ := [a.px - g.1, a.py - g.2]

/-- Row of `obs_target` for agent `a`: `np.zeros((n, nearest_targets * 2))`
whose first `n_nearest_targets = min(nearest_targets, m)` blocks are filled by
the loop, the rest keeping their zeros. -/
def obsTarget (a : Agent) (gs : List (ℚ × ℚ)) (k : ℕ) : List ℚ :=
  ((nearestTargetsIdx a gs k).take (min k gs.length)).flatMap
    (fun j => targetPairFeature a (gs.getD j (0, 0)))
  ++ List.replicate (2 * k - 2 * min k gs.length) 0

/-- `self.target_observed = np.any(self.r2_targets < self.obs_rad2, axis=0)`:
for each gathered target, whether *some* agent is strictly within the
observation radius. -/
def observedList (x : List Agent) (gs : List (ℚ × ℚ)) (rad2 : ℚ) : List Bool :=
  gs.map (fun g => x.any (fun a => decide (r2Target a g < rad2)))

/-- `np.tile(np.logical_not(self.target_observed), (1, 2)).flatten()`: each
negated observation bit duplicated for the two mask columns. -/
def maskVals (obs : List Bool) : List Bool := obs.flatMap (fun o => [!o, !o])

/-- `self.n_targets_obs_per_agent = np.sum(self.r2_targets < self.obs_rad2, axis=1)`:
per agent, how many gathered targets are strictly within the radius. -/
def nTargetsObs (x : List Agent) (gs : List (ℚ × ℚ)) (rad2 : ℚ) : List ℕ :=
  x.map (fun a => gs.countP (fun g => decide (r2Target a g < rad2)))

/-- The per-step products of `compute_helpers` that `step`/`reset` read
(`self.adj_mat`, `self.adj_mat_mean`, `self.n_targets_obs_per_agent`,
`self.state_values`, `self.state_network`, `self.greedy_action`). -/
structure Computed where
  adj_mat : List (List ℚ)
  adj_mat_mean : List (List ℚ)
  n_targets_obs_per_agent : List ℕ
  state_values : List (List ℚ)
  state_network : List (List ℚ)
  greedy_action : List (List ℚ)
deriving DecidableEq

/-- The body of `compute_helpers` after the masked targets have been gathered
into `gs` (the reshape of `self.target_x[self.target_unobserved]`).  Returns
the environment with the updated mask together with the cached products. -/
def compute_helpers_aux (e : Env) (gs : List (ℚ × ℚ)) : Env × Computed :=
  let n := e.n_agents
  let adj : List (List ℚ) :=
    (List.range n).map (fun i => (List.range n).map (fun j => adjEntry e.x e.nearest_agents i j))
  let adjMean : List (List ℚ) :=
    (List.range n).map (fun i => (List.range n).map (fun j => adjMeanEntry e.x e.nearest_agents i j))
  let sv : List (List ℚ) :=
    (List.range n).map (fun i =>
      [(e.x.getD i default).vx, (e.x.getD i default).vy]
        ++ obsNeigh e.x e.nearest_agents i
        ++ obsTarget (e.x.getD i default) gs e.nearest_targets)
  let ga : List (List ℚ) :=
    (List.range n).map (fun i =>
      ((obsTarget (e.x.getD i default) gs e.nearest_targets).take 2).map (fun q => -q))
  ({ e with
      target_unobserved := setMasked e.target_unobserved (maskVals (observedList e.x gs e.obs_rad2)) },
   { adj_mat := adj
     adj_mat_mean := adjMean
     n_targets_obs_per_agent := nTargetsObs e.x gs e.obs_rad2
     state_values := sv
     state_network := if e.mean_pooling then adjMean else adj
     greedy_action := ga })

/-- `compute_helpers`.  `none` models a numpy exception: the reshapes of
`self.x` need `len(x) = n_agents`; `np.argpartition(_, range(nearest_agents))`
needs every `kth < n_agents`; boolean indexing needs mask and array shapes to
match; the `reshape((-1, 2))` of the gathered entries needs an even count. -/
def compute_helpers (e : Env) : Option (Env × Computed) :=
  if e.x.length = e.n_agents ∧ e.nearest_agents ≤ e.n_agents
      ∧ e.target_unobserved.length = e.target_x.length then
    (pairUp (maskedFlat e.target_x e.target_unobserved)).map (compute_helpers_aux e)
  else none

/-- The `assert u.shape == (self.n_agents, self.nu)` precondition of `step`
(`nu = 2`): a proper `[n_agents, 2]` matrix. -/
def shapeOk (e : Env) (u : List (List ℚ)) : Prop :=
  u.length = e.n_agents ∧ ∀ r ∈ u, r.length = 2

instance (e : Env) (u : List (List ℚ)) : Decidable (shapeOk e u) := by
  unfold shapeOk; exact inferInstance

/-- The commanded acceleration after `np.clip(u, -max_accel, max_accel)` and
`u * action_scalar`, one `(x, y)` pair per agent row. -/
def clippedCmds (e : Env) (u : List (List ℚ)) : List (ℚ × ℚ) :=
  u.map (fun r =>
    (clip (-e.max_accel) e.max_accel (r.getD 0 0) * e.action_scalar,
     clip (-e.max_accel) e.max_accel (r.getD 1 0) * e.action_scalar))

/-- The four in-place kinematic updates of `step`: positions advance with the
pre-update velocities (the velocity columns are written only afterwards), then
the velocity columns are clipped to `[-v_max, v_max]`. -/
def integrate (e : Env) (u : List (List ℚ)) : List Agent :=
  (e.x.zip (clippedCmds e u)).map (fun p =>
    { px := p.1.px + p.1.vx * e.dt + p.2.1 * e.dt * e.dt * (1 / 2)
      py := p.1.py + p.1.vy * e.dt + p.2.2 * e.dt * e.dt * (1 / 2)
      vx := clip (-e.v_max) e.v_max (p.1.vx + p.2.1 * e.dt)
      vy := clip (-e.v_max) e.v_max (p.1.vy + p.2.2 * e.dt) })

/-- The squared per-agent position displacements of a step
(`dist_traveled` before the square root of `np.linalg.norm`). -/
def sqDisplacements (e : Env) (u : List (List ℚ)) : List ℚ :=
  ((integrate e u).zip e.x).map (fun q => sq (q.1.px - q.2.px) + sq (q.1.py - q.2.py))

/-- Everything `step` computes except the final reward assembly: the new
environment, the `compute_helpers` products, the `done` flag, and the squared
per-agent position displacements.  `none` models a raised exception (failed
shape assert, or a `compute_helpers` error). -/
def stepCore (e : Env) (u : List (List ℚ)) : Option (Env × Computed × Bool × List ℚ) :=
  if shapeOk e u then
    match compute_helpers { e with x := integrate e u } with
    | none => none
    | some p =>
      some (p.1, p.2, decide (countTrue p.1.target_unobserved = 0), sqDisplacements e u)
  else none

/-- `step`: returns the updated environment together with the Python return
value `((state_values, state_network), n_targets_obs_per_agent - 0.1 * dist_traveled,
done, {})`. -/
noncomputable def step (e : Env) (u : List (List ℚ)) :
    Option (Env × (List (List ℚ) × List (List ℚ)) × List ℝ × Bool) :=
  (stepCore e u).map (fun p =>
    (p.1, (p.2.1.state_values, p.2.1.state_network),
     (p.2.1.n_targets_obs_per_agent.zip p.2.2.2).map
       (fun q => (q.1 : ℝ) - (1 / 10) * Real.sqrt (q.2 : ℝ)),
     p.2.2.1))

/-- Modelled from the spec: `gym.utils.seeding.np_random` (gym library code,
not part of this repository) builds a fresh pseudo-random stream determined by
the seed and reports the resolved seed. -/
def np_random_lib (s : ℕ) : (ℕ → ℚ) × ℕ :=
  (fun t => (((s + t) % 1000 : ℕ) : ℚ) / 1000, s)

/-- `seed`: stores the seeded `RandomState` in `self.np_random` and returns
`[seed]`.  Note that nothing else in the class ever reads `self.np_random`. -/
def seed (e : Env) (s : ℕ) : Env × List ℕ :=
  ({ e with np_random := (np_random_lib s).1 }, [(np_random_lib s).2])

/-- `reset`: fresh uniform draws for positions in `[-px_max, px_max) ×
[-py_max, py_max)` and velocities in `[-v_max, v_max)`, mask back to all ones,
then `compute_helpers`.  The draws `np.random.uniform(...)` come from the
*global* numpy stream `g` (consumed column by column: the `n` x-positions,
then the `n` y-positions, then the two velocity columns) — not from
`self.np_random`. -/
def reset (e : Env) (g : ℕ → ℚ) : Option (Env × Computed) :=
  let n := e.n_agents
  let xs : List Agent := (List.range n).map (fun i =>
    { px := uniformDraw (-e.px_max) e.px_max (g i)
      py := uniformDraw (-e.py_max) e.py_max (g (n + i))
      vx := uniformDraw (-e.v_max) e.v_max (g (2 * n + i))
      vy := uniformDraw (-e.v_max) e.v_max (g (3 * n + i)) })
  compute_helpers
    { e with x := xs, target_unobserved := List.replicate (n * n) (true, true) }

/-- `params_from_cfg`: reads the configuration and rebuilds the derived
quantities (feature width, target grid, mask, observation radius). -/
def params_from_cfg (e : Env) (a : Cfg) : Env :=
  { e with
    n_agents := a.n_agents
    nearest_agents := a.nearest_agents
    nearest_targets := a.nearest_targets
    n_features := 2 + 4 * a.nearest_agents + 2 * a.nearest_targets
    action_scalar := a.action_scalar
    px_max := (a.n_agents : ℚ)
    py_max := (a.n_agents : ℚ)
    target_x := targetGrid a.n_agents
    target_unobserved := List.replicate (a.n_agents * a.n_agents) (true, true)
    obs_rad := a.obs_radius
    obs_rad2 := a.obs_radius * a.obs_radius
    v_max := a.v_max
    dt := a.dt }

/-- `__init__`: the default problem parameters.  `self.x = None` becomes the
empty list (it is overwritten by `reset` before any use); the `RandomState`
installed by the `self.seed()` call (seeded from OS entropy) is modelled by
an arbitrary fixed stream. -/
def initEnv : Env :=
  { n_agents := 20
    nearest_agents := 4
    nearest_targets := 4
    n_features := 2 + 4 * 4 + 2 * 4
    dt := 1 / 10
    v_max := 5
    max_accel := 1
    action_scalar := 10
    obs_rad := 1
    obs_rad2 := 1
    px_max := 20
    py_max := 20
    mean_pooling := true
    np_random := (np_random_lib 0).1
    x := []
    target_x := targetGrid 20
    target_unobserved := List.replicate (20 * 20) (true, true) }

/-- A sequence of `step` calls (the environment component of each successful
call feeding the next); `none` as soon as one call raises. -/
noncomputable def runSteps (e : Env) : List (List (List ℚ)) → Option Env
  | [] => some e
  | u :: us =>
    match step e u with
    | none => none
    | some p => runSteps p.1 us

/-- The `done` flag returned by `step`. -/
noncomputable def doneAfter (e : Env) (u : List (List ℚ)) : Option Bool :=
  (step e u).map (fun p => p.2.2.2)

/-- The environment state after `step` (the mutated `self`). -/
noncomputable def envAfter (e : Env) (u : List (List ℚ)) : Option Env :=
  (step e u).map (fun p => p.1)

/-- The reward vector returned by `step`. -/
noncomputable def rewardAfter (e : Env) (u : List (List ℚ)) : Option (List ℝ) :=
  (step e u).map (fun p => p.2.2.1)

/-- Spec-side view of the still-unobserved targets: the target points whose
mask row is `true`. -/
def unobservedTargets (e : Env) : List (ℚ × ℚ) :=
  ((e.target_x.zip e.target_unobserved).filter (fun q => q.2.1)).map (fun q => q.1)

/-- Spec-side reward count for agent `i`: the number of targets unobserved at
the start of the step's bookkeeping whose squared distance to the agent's
post-integration position is strictly below `obs_rad²`. -/
def specNTargets (e e' : Env) (i : ℕ) : ℕ :=
  (unobservedTargets e).countP (fun g => decide (r2Target (e'.x.getD i default) g < e.obs_rad2))

/-- Spec-side distance traveled by agent `i` during a step from `e` to `e'`:
the Euclidean norm of the position displacement. -/
noncomputable def specDistTraveled (e e' : Env) (i : ℕ) : ℝ :=
  Real.sqrt (((sq ((e'.x.getD i default).px - (e.x.getD i default).px)
    + sq ((e'.x.getD i default).py - (e.x.getD i default).py) : ℚ) : ℝ))

/-- Spec-side acceleration of agent `i`: the commanded row clipped
componentwise to `[-max_accel, max_accel]` and scaled by `action_scalar`. -/
def specAccel (e : Env) (u : List (List ℚ)) (i : ℕ) : ℚ × ℚ :=
  (clip (-e.max_accel) e.max_accel ((u.getD i []).getD 0 0) * e.action_scalar,
   clip (-e.max_accel) e.max_accel ((u.getD i []).getD 1 0) * e.action_scalar)

/-- Spec-side semi-implicit Euler update of one agent:
`position + velocity·dt + ½·accel·dt²` with the pre-update velocity, then
`velocity + accel·dt` clipped componentwise to `[-v_max, v_max]`. -/
def specEuler (e : Env) (a : Agent) (acc : ℚ × ℚ) : Agent :=
  { px := a.px + a.vx * e.dt + (1 / 2) * acc.1 * e.dt ^ 2
    py := a.py + a.vy * e.dt + (1 / 2) * acc.2 * e.dt ^ 2
    vx := clip (-e.v_max) e.v_max (a.vx + acc.1 * e.dt)
    vy := clip (-e.v_max) e.v_max (a.vy + acc.2 * e.dt) }

/-! Concrete test fixtures (reachable states of small configurations, used to
exhibit concrete behaviors and to instantiate hypotheses). -/

/-- A 2-agent configuration. -/
def envC1 : Env := params_from_cfg initEnv ⟨2, 1, 1, 10, 1, 5, 1 / 10⟩

/-- A global numpy stream whose unit draws are all `0`. -/
def gA : ℕ → ℚ := fun _ => 0

/-- A global numpy stream whose unit draws are all `1/2`. -/
def gB : ℕ → ℚ := fun _ => 1 / 2

/-- A 3-agent, 1-nearest-neighbor configuration. -/
def cfgC2 : Cfg := ⟨3, 1, 1, 10, 1, 5, 1 / 10⟩

def envC2 : Env := params_from_cfg initEnv cfgC2

/-- Global draws that make `reset envC2` place the three agents at `(0, 0)`,
`(1, 0)` and `(5/2, 0)` with zero velocities. -/
def gC2 : ℕ → ℚ := fun t => if t = 1 then 2 / 3 else if t = 2 then 11 / 12 else 1 / 2

/-- A configuration with `nearest_agents = 3 > 2 = n_agents`. -/
def envC9bad : Env := params_from_cfg initEnv ⟨2, 3, 1, 10, 1, 5, 1 / 10⟩

/-- A configuration with `nearest_agents = 2 = n_agents` and a concrete agent
state. -/
def envC9eq : Env :=
  { params_from_cfg initEnv ⟨2, 2, 1, 10, 1, 5, 1 / 10⟩ with
    x := [⟨0, 0, 0, 0⟩, ⟨1, 0, 0, 0⟩] }

/-- A single agent at the origin; the 1-agent target grid is the one point
`(-1, -1)`; `nearest_targets = 3`. -/
def envT : Env :=
  { params_from_cfg initEnv ⟨1, 1, 3, 10, 1, 5, 1 / 10⟩ with x := [⟨0, 0, 0, 0⟩] }

/-- `envT` with its single target already observed. -/
def envDone : Env := { envT with target_unobserved := [(false, false)] }

/-! General list access lemmas used throughout. -/

lemma getD_eq_getElem {α : Type} (l : List α) (i : ℕ) (d : α) (h : i < l.length) :
    l.getD i d = l[i] := by
  rw [List.getD_eq_getElem?_getD, List.getElem?_eq_getElem h]
  rfl

lemma getD_map_range {α : Type} (f : ℕ → α) {n i : ℕ} (d : α) (h : i < n) :
    ((List.range n).map f).getD i d = f i := by
  have hl : i < ((List.range n).map f).length := by simpa using h
  rw [getD_eq_getElem _ _ _ hl, List.getElem_map, List.getElem_range]

lemma getD_map {α β : Type} (f : α → β) {l : List α} {i : ℕ} (d : β) (d' : α)
    (h : i < l.length) :
    (l.map f).getD i d = f (l.getD i d') := by
  have hl : i < (l.map f).length := by simpa using h
  rw [getD_eq_getElem _ _ _ hl, List.getElem_map, getD_eq_getElem _ _ _ h]

lemma getD_zip {α β : Type} {as : List α} {bs : List β} {i : ℕ} (d : α × β) (da : α) (db : β)
    (h1 : i < as.length) (h2 : i < bs.length) :
    (as.zip bs).getD i d = (as.getD i da, bs.getD i db) := by
  have hl : i < (as.zip bs).length := by simp [h1, h2]
  rw [getD_eq_getElem _ _ _ hl, List.getElem_zip, getD_eq_getElem _ _ _ h1,
    getD_eq_getElem _ _ _ h2]

lemma length_flatMap_const {α β : Type} (l : List α) (f : α → List β) (c : ℕ)
    (h : ∀ a ∈ l, (f a).length = c) : (l.flatMap f).length = c * l.length := by
  induction l with
  | nil => simp
  | cons a l ih =>
    simp only [List.flatMap_cons, List.length_append, List.length_cons]
    rw [h a (List.mem_cons_self a l), ih (fun b hb => h b (List.mem_cons_of_mem a hb))]
    ring

lemma getD_map_zip {α β γ : Type} (f : α × β → γ) {as : List α} {bs : List β} {i : ℕ}
    (d : γ) (da : α) (db : β) (h1 : i < as.length) (h2 : i < bs.length) :
    ((as.zip bs).map f).getD i d = f (as.getD i da, bs.getD i db) := by
  rw [getD_map f d (da, db) (by simp [h1, h2]), getD_zip _ da db h1 h2]

/-! Lemmas about the mask machinery. -/

lemma maskWF_replicate (n : ℕ) : MaskWF (List.replicate n (true, true)) := by
  intro p hp
  rw [List.eq_of_mem_replicate hp]

/-- Gathering with a well-formed mask keeps whole `(x, y)` pairs: the masked
flatten has even length and `reshape((-1, 2))` recovers exactly the target
points whose mask row is `true`. -/
lemma pairUp_maskedFlat : ∀ (tx : List (ℚ × ℚ)) (m : List (Bool × Bool)), MaskWF m →
    pairUp (maskedFlat tx m)
      = some (((tx.zip m).filter (fun q => q.2.1)).map (fun q => q.1))
  | [], m, _ => by cases m <;> rfl
  | _ :: _, [], _ => rfl
  | t :: tx, m :: ms, h => by
    have hm : m.1 = m.2 := h m (List.mem_cons_self m ms)
    have htail : MaskWF ms := fun p hp => h p (List.mem_cons_of_mem m hp)
    obtain ⟨m1, m2⟩ := m
    dsimp only at hm
    subst hm
    cases m1 with
    | true =>
      show pairUp (t.1 :: t.2 :: maskedFlat tx ms) = _
      rw [pairUp, pairUp_maskedFlat tx ms htail]
      simp [List.filter_cons]
    | false =>
      show pairUp (maskedFlat tx ms) = _
      rw [pairUp_maskedFlat tx ms htail]
      simp [List.filter_cons]

lemma setMasked_length : ∀ (m : List (Bool × Bool)) (vals : List Bool),
    (setMasked m vals).length = m.length
  | [], _ => rfl
  | p :: rest, vals => by
    obtain ⟨b1, b2⟩ := p
    cases b1 <;> cases b2 <;> simp [setMasked, setMasked_length rest]

/-- A boolean-mask assignment can only rewrite `True` entries: every `true`
of the result was already `true` in the mask. -/
lemma setMasked_le : ∀ (m : List (Bool × Bool)) (vals : List Bool),
    maskLe (setMasked m vals) m
  | [], _ => List.Forall₂.nil
  | p :: rest, vals => by
    obtain ⟨b1, b2⟩ := p
    cases b1 <;> cases b2 <;>
      exact List.Forall₂.cons (by simp) (setMasked_le rest _)

/-- Writing per-target duplicated values into a well-formed mask keeps the two
columns of each target row equal. -/
lemma setMasked_wf : ∀ (m : List (Bool × Bool)), MaskWF m → ∀ (obs : List Bool),
    MaskWF (setMasked m (maskVals obs))
  | [], _, _ => by intro q hq; simp [setMasked] at hq
  | p :: rest, h, obs => by
    obtain ⟨b1, b2⟩ := p
    have hb : b1 = b2 := h _ (List.mem_cons_self _ _)
    have htail : MaskWF rest := fun q hq => h q (List.mem_cons_of_mem _ hq)
    subst hb
    cases b1 with
    | false =>
      intro q hq
      rcases List.mem_cons.mp (by simpa [setMasked] using hq) with hq1 | hq2
      · simp [hq1]
      · exact setMasked_wf rest htail obs q hq2
    | true =>
      cases obs with
      | nil =>
        intro q hq
        rcases List.mem_cons.mp (by simpa [setMasked, maskVals] using hq) with hq1 | hq2
        · simp [hq1]
        · exact setMasked_wf rest htail [] q (by simpa [maskVals] using hq2)
      | cons o obs' =>
        intro q hq
        rcases List.mem_cons.mp (by simpa [setMasked, maskVals] using hq) with hq1 | hq2
        · simp [hq1]
        · exact setMasked_wf rest htail obs' q (by simpa [maskVals] using hq2)

lemma toNat_le_of_imp {a b : Bool} (h : a = true → b = true) : a.toNat ≤ b.toNat := by
  cases a
  · simp
  · rw [h rfl]

lemma maskLe_countTrue : ∀ {m' m : List (Bool × Bool)}, maskLe m' m →
    countTrue m' ≤ countTrue m := by
  intro m' m h
  induction h with
  | nil => exact le_refl 0
  | cons hpq _ ih =>
    simpa [countTrue] using add_le_add (add_le_add (toNat_le_of_imp hpq.1) (toNat_le_of_imp hpq.2)) ih

lemma maskLe_refl (m : List (Bool × Bool)) : maskLe m m :=
  List.forall₂_same.mpr (fun _ _ => ⟨id, id⟩)

lemma maskLe_trans : ∀ {a b c : List (Bool × Bool)}, maskLe a b → maskLe b c → maskLe a c := by
  intro a b c hab
  induction hab generalizing c with
  | nil =>
    intro hbc
    cases hbc
    exact List.Forall₂.nil
  | cons hpq _ ih =>
    intro hbc
    cases hbc with
    | cons hqr hrest =>
      exact List.Forall₂.cons
        ⟨fun h => hqr.1 (hpq.1 h), fun h => hqr.2 (hpq.2 h)⟩ (ih hrest)

/-! Characterizations of the `Option`-valued operations. -/

lemma aux_env_eq (e : Env) (gs : List (ℚ × ℚ)) :
    (compute_helpers_aux e gs).1
      = { e with target_unobserved :=
            setMasked e.target_unobserved (maskVals (observedList e.x gs e.obs_rad2)) } := rfl

lemma compute_helpers_some_iff {e : Env} {p : Env × Computed} :
    compute_helpers e = some p ↔
      (e.x.length = e.n_agents ∧ e.nearest_agents ≤ e.n_agents
        ∧ e.target_unobserved.length = e.target_x.length)
      ∧ ∃ gs, pairUp (maskedFlat e.target_x e.target_unobserved) = some gs
          ∧ compute_helpers_aux e gs = p := by
  unfold compute_helpers
  split
  · simp only [Option.map_eq_some', true_and, *]
  · simp_all

/-- With a well-formed mask of the right length and a consistent agent list,
`compute_helpers` succeeds and gathers exactly the still-unobserved targets. -/
lemma compute_helpers_of_wf {e : Env}
    (hx : e.x.length = e.n_agents) (hk : e.nearest_agents ≤ e.n_agents)
    (hlen : e.target_unobserved.length = e.target_x.length)
    (hWF : MaskWF e.target_unobserved) :
    compute_helpers e
      = some (compute_helpers_aux e
          (((e.target_x.zip e.target_unobserved).filter (fun q => q.2.1)).map (fun q => q.1))) := by
  unfold compute_helpers
  rw [if_pos ⟨hx, hk, hlen⟩, pairUp_maskedFlat e.target_x e.target_unobserved hWF]
  rfl

lemma stepCore_some_iff {e : Env} {u : List (List ℚ)} {p : Env × Computed × Bool × List ℚ} :
    stepCore e u = some p ↔
      shapeOk e u ∧ ∃ q, compute_helpers { e with x := integrate e u } = some q
        ∧ p = (q.1, q.2, decide (countTrue q.1.target_unobserved = 0), sqDisplacements e u) := by
  unfold stepCore
  split
  · cases hc : compute_helpers { e with x := integrate e u } with
    | none => simp [*]
    | some q => simp [*, eq_comm]
  · simp [*]

lemma step_some_iff {e : Env} {u : List (List ℚ)}
    {p : Env × (List (List ℚ) × List (List ℚ)) × List ℝ × Bool} :
    step e u = some p ↔
      ∃ q, stepCore e u = some q
        ∧ p = (q.1, (q.2.1.state_values, q.2.1.state_network),
            (q.2.1.n_targets_obs_per_agent.zip q.2.2.2).map
              (fun r => (r.1 : ℝ) - (1 / 10) * Real.sqrt (r.2 : ℝ)),
            q.2.2.1) := by
  unfold step
  rw [Option.map_eq_some']
  constructor
  · rintro ⟨q, hq, rfl⟩
    exact ⟨q, hq, rfl⟩
  · rintro ⟨q, hq, rfl⟩
    exact ⟨q, hq, rfl⟩

/-- The mask after a successful `stepCore` is a boolean-mask assignment of
per-target duplicated observation bits into the pre-step mask. -/
lemma stepCore_mask {e : Env} {u : List (List ℚ)} {p : Env × Computed × Bool × List ℚ}
    (h : stepCore e u = some p) :
    ∃ obs, p.1.target_unobserved
      = setMasked e.target_unobserved (maskVals obs) := by
  obtain ⟨-, q, hq, rfl⟩ := stepCore_some_iff.mp h
  obtain ⟨-, gs, -, rfl⟩ := compute_helpers_some_iff.mp hq
  exact ⟨_, rfl⟩

lemma step_mask {e : Env} {u : List (List ℚ)}
    {p : Env × (List (List ℚ) × List (List ℚ)) × List ℝ × Bool}
    (h : step e u = some p) :
    ∃ obs, p.1.target_unobserved
      = setMasked e.target_unobserved (maskVals obs) := by
  obtain ⟨q, hq, rfl⟩ := step_some_iff.mp h
  exact stepCore_mask hq

/-- Once no unobserved target remains, no later `step` of the episode can
revive one. -/
lemma countZero_absorbing : ∀ (us : List (List (List ℚ))) (e : Env),
    countTrue e.target_unobserved = 0 →
    (runSteps e us).elim True (fun e' => countTrue e'.target_unobserved = 0)
  | [], e, h0 => by simpa [runSteps] using h0
  | u :: us, e, h0 => by
    rw [runSteps]
    cases hs : step e u with
    | none => trivial
    | some p =>
      dsimp only
      obtain ⟨obs, hm⟩ := step_mask hs
      have h1 : countTrue p.1.target_unobserved ≤ countTrue e.target_unobserved :=
        maskLe_countTrue (hm ▸ setMasked_le _ _)
      exact countZero_absorbing us p.1 (Nat.le_zero.mp (h0 ▸ h1))

lemma doneAfter_char (e : Env) (u : List (List ℚ)) :
    doneAfter e u
      = (envAfter e u).map (fun e' => decide (countTrue e'.target_unobserved = 0)) := by
  unfold doneAfter envAfter
  cases hs : step e u with
  | none => rfl
  | some p =>
    obtain ⟨q, hq, rfl⟩ := step_some_iff.mp hs
    obtain ⟨-, q', hq', rfl⟩ := stepCore_some_iff.mp hq
    rfl

/-- A successful `compute_helpers` keeps the two mask columns of each target
row in agreement and preserves the number of rows. -/
lemma compute_helpers_wf_mask (e : Env) (h : MaskWF e.target_unobserved)
    {p : Env × Computed} (hc : compute_helpers e = some p) :
    MaskWF p.1.target_unobserved
      ∧ p.1.target_unobserved.length = e.target_unobserved.length := by
  obtain ⟨-, gs, -, haux⟩ := compute_helpers_some_iff.mp hc
  have hm : p.1.target_unobserved
      = setMasked e.target_unobserved (maskVals (observedList e.x gs e.obs_rad2)) := by
    rw [← haux]; rfl
  rw [hm]
  exact ⟨setMasked_wf _ h _, setMasked_length _ _⟩

lemma rankLe_imp_le {α : Type} [LinearOrder α] (key : ℕ → α) {a b : ℕ}
    (h : rankLe key a b) : key a ≤ key b := by
  rcases h with h | ⟨h, -⟩
  · exact le_of_lt h
  · exact le_of_eq h

/-! ## The claims -/

/-- **C3.**  Across any sequence of `step` calls within one episode, the
unobserved-target mask is monotone: the mask update only ever changes entries
from `true` (unobserved) to `false` (observed), never the reverse (pointwise
`maskLe`), so the count of unobserved entries never increases along the run;
only `reset` reinstalls the all-`true` mask. -/
theorem mask_monotone_over_steps (e : Env) (us : List (List (List ℚ))) :
    (runSteps e us).elim True (fun e' =>
      maskLe e'.target_unobserved e.target_unobserved
      ∧ countTrue e'.target_unobserved ≤ countTrue e.target_unobserved) := by
  induction us generalizing e with
  | nil => exact ⟨maskLe_refl _, le_refl _⟩
  | cons u us ih =>
    rw [runSteps]
    cases hs : step e u with
    | none => trivial
    | some p =>
      dsimp only
      obtain ⟨obs, hm⟩ := step_mask hs
      have h1 : maskLe p.1.target_unobserved e.target_unobserved := hm ▸ setMasked_le _ _
      have h2 := ih p.1
      cases hr : runSteps p.1 us with
      | none => trivial
      | some e' =>
        rw [hr] at h2
        show maskLe e'.target_unobserved e.target_unobserved
          ∧ countTrue e'.target_unobserved ≤ countTrue e.target_unobserved
        have h2' : maskLe e'.target_unobserved p.1.target_unobserved
            ∧ countTrue e'.target_unobserved ≤ countTrue p.1.target_unobserved := h2
        exact ⟨maskLe_trans h2'.1 h1, le_trans h2'.2 (maskLe_countTrue h1)⟩

/-- **C4.**  The `done` flag returned by `step` is `true` exactly when the
count of unobserved-mask entries is zero after the step's mask update (so it
first becomes `true` at the first step reaching zero), and the terminal state
is absorbing: once the count is zero it stays zero under any further sequence
of `step` calls of the episode. -/
theorem done_iff_none_unobserved_and_absorbing (e : Env) (u : List (List ℚ))
    (us : List (List (List ℚ))) :
    doneAfter e u
      = (envAfter e u).map (fun e' => decide (countTrue e'.target_unobserved = 0))
    ∧ (countTrue e.target_unobserved = 0 →
        (runSteps e us).elim True (fun e' => countTrue e'.target_unobserved = 0)) :=
  ⟨doneAfter_char e u, countZero_absorbing us e⟩

/-- Witness for **C4** on a concrete terminal state: `envDone` has no
unobserved target left, one more step keeps the count at zero and reports
`done` consistently with the zero count. -/
theorem done_iff_none_unobserved_and_absorbing_witness :
    (doneAfter envDone [[0, 0]]
      = (envAfter envDone [[0, 0]]).map (fun e' => decide (countTrue e'.target_unobserved = 0)))
    ∧ (runSteps envDone [[[0, 0]]]).elim True
        (fun e' => countTrue e'.target_unobserved = 0) :=
  ⟨(done_iff_none_unobserved_and_absorbing envDone [[0, 0]] [[[0, 0]]]).1,
   (done_iff_none_unobserved_and_absorbing envDone [[0, 0]] [[[0, 0]]]).2 (by decide)⟩

/-- **C1** (code bug).  `seed` installs a `RandomState` in `self.np_random`,
but `reset` draws its initial state from the *global* `np.random` stream:
the seeded source is not the source of `reset`'s randomness.  First conjunct:
the trajectory projection of `reset` is entirely independent of the seed
given to `seed`.  Second conjunct: with the same seed, two different states of
the global stream give different initial agent states, so two instances
seeded alike need not reproduce the same trajectory. -/
theorem seeded_source_unused_by_reset :
    (∀ s₁ s₂ : ℕ,
      (reset (seed envC1 s₁).1 gA).map (fun p => p.1.x)
        = (reset (seed envC1 s₂).1 gA).map (fun p => p.1.x))
    ∧ (reset (seed envC1 7).1 gA).map (fun p => p.1.x)
        ≠ (reset (seed envC1 7).1 gB).map (fun p => p.1.x) :=
  ⟨fun _ _ => rfl, by with_unfolding_all decide⟩

/-- **C2** (code bug).  `self.adj_mat[:, nearest[:, i]] = 1.0` assigns whole
*columns* (numpy basic+advanced indexing), not per-row entries, so a row can
carry a `1` for an agent that is not among that row's nearest neighbors.
After the `reset` draw placing the agents of `envC2` at `(0,0)`, `(1,0)`,
`(5/2,0)` with `nearest_agents = 1`, the per-row counts of ones in `adj_mat`
are `[1, 1, 2]`: row 2 has two ones although `min(nearest_agents, n_agents - 1)
= 1` (agent 2's unique nearest neighbor is agent 1, yet columns 0 and 1 are
both set). -/
theorem adj_rows_not_nearest_counts :
    (reset envC2 gC2).map (fun p => p.2.adj_mat.map (fun row => row.count 1)) = some [1, 1, 2]
    ∧ min cfgC2.nearest_agents (cfgC2.n_agents - 1) = 1 := by
  constructor
  · with_unfolding_all decide
  · rfl

/-- **C9** (counterexample).  With `nearest_agents = 3 > 2 = n_agents` the
per-step neighbor selection does *not* complete:
`np.argpartition(r2, range(nearest_agents))` requires every `kth` index to be
below `n_agents`, so `reset` (which runs the selection) raises. -/
theorem nearest_agents_above_count_raises : reset envC9bad gA = none :=
  Option.isNone_iff_eq_none.mp (by decide)

/-- **C9** (amended).  If `nearest_agents = n_agents` the neighbor selection
completes and saturates: whenever `compute_helpers` succeeds, the adjacency
matrix has a `1` at every off-diagonal entry (every other agent is selected as
a neighbor of each agent) and `0` on the diagonal — each row marks all
`n_agents - 1` other agents.  (For `nearest_agents > n_agents` the selection
raises instead, see the counterexample.) -/
theorem neighbor_selection_saturates_at_equality (e : Env)
    (h : e.nearest_agents = e.n_agents)
    (hs : (compute_helpers e).isSome = true) :
    (compute_helpers e).map (fun p => p.2.adj_mat)
      = some ((List.range e.n_agents).map (fun i =>
          (List.range e.n_agents).map (fun j => if i = j then (0 : ℚ) else 1))) := by
  obtain ⟨p, hp⟩ := Option.isSome_iff_exists.mp hs
  obtain ⟨⟨hx, _, _⟩, gs, _, haux⟩ := compute_helpers_some_iff.mp hp
  subst haux
  rw [hp]
  show some ((List.range e.n_agents).map (fun i =>
    (List.range e.n_agents).map (fun j => adjEntry e.x e.nearest_agents i j))) = _
  have hk : e.nearest_agents = e.x.length := by rw [h, hx]
  have hmem : ∀ j, j < e.x.length → j ∈ nearestUnion e.x e.nearest_agents := by
    intro j hj
    unfold nearestUnion selectedNeighbors
    rw [List.mem_flatMap]
    refine ⟨j, List.mem_range.mpr hj, ?_⟩
    rw [List.take_of_length_le
      (by rw [hk]; unfold sortedNeighbors; rw [List.length_insertionSort, List.length_range])]
    unfold sortedNeighbors
    rw [List.mem_insertionSort]
    exact List.mem_range.mpr hj
  congr 1
  apply List.map_congr_left
  intro i _
  apply List.map_congr_left
  intro j hj
  have hjx : j < e.x.length := by rw [hx]; exact List.mem_range.mp hj
  by_cases hij : i = j
  · simp [adjEntry, hij]
  · simp [adjEntry, hij, hmem j hjx]

/-- Witness for the amended **C9**: the 2-agent fixture with
`nearest_agents = 2 = n_agents` yields the all-ones-off-diagonal adjacency. -/
theorem neighbor_selection_saturates_at_equality_witness :
    (compute_helpers envC9eq).map (fun p => p.2.adj_mat)
      = some ((List.range envC9eq.n_agents).map (fun i =>
          (List.range envC9eq.n_agents).map (fun j => if i = j then (0 : ℚ) else 1))) :=
  neighbor_selection_saturates_at_equality envC9eq rfl (by decide)

/-- **C6.**  Starting from a consistent environment state (agent list of the
declared size, `nearest_agents ≤ n_agents`, mask of the declared shape with
agreeing columns — all established by construction and preserved by the
operations), `step` raises if and only if the command matrix is not of shape
`[n_agents, 2]`; for every command of that shape it completes regardless of
the numeric values.  (In this functional embedding a raised `step` returns
`none` and performs no state update.) -/
theorem step_raises_iff_shape_mismatch (e : Env) (u : List (List ℚ))
    (hx : e.x.length = e.n_agents)
    (hk : e.nearest_agents ≤ e.n_agents)
    (hlen : e.target_unobserved.length = e.target_x.length)
    (hWF : MaskWF e.target_unobserved) :
    (step e u).isSome = true ↔ shapeOk e u := by
  constructor
  · intro h
    obtain ⟨p, hp⟩ := Option.isSome_iff_exists.mp h
    obtain ⟨q, hq, -⟩ := step_some_iff.mp hp
    exact (stepCore_some_iff.mp hq).1
  · intro hsh
    have hxlen : (integrate e u).length = e.n_agents := by
      unfold integrate clippedCmds
      rw [List.length_map, List.length_zip, List.length_map, hx, hsh.1, min_self]
    have hch := compute_helpers_of_wf (e := { e with x := integrate e u })
      hxlen hk hlen hWF
    unfold step stepCore
    rw [if_pos hsh, hch]
    rfl

/-- Witness for **C6** on the single-agent fixture with a badly clipped,
arbitrary-valued but correctly shaped command. -/
theorem step_raises_iff_shape_mismatch_witness :
    (step envT [[7, -9]]).isSome = true ↔ shapeOk envT [[7, -9]] :=
  step_raises_iff_shape_mismatch envT [[7, -9]] (by decide) (by decide) (by decide) (by decide)

/-- **C8.**  For every command matrix of shape `[n_agents, 2]` (any other
shape makes `step` raise, covered by the `True` branch) and every prior
kinematic state, `step` updates each agent exactly by
`accel = clip(u, ±max_accel) * action_scalar`,
`position += velocity·dt + ½·accel·dt²` (with the pre-update velocity),
`velocity = clip(velocity + accel·dt, ±v_max)`, componentwise. -/
theorem dynamics_semi_implicit_euler (e : Env) (u : List (List ℚ)) (i : ℕ)
    (hx : e.x.length = e.n_agents) (hi : i < e.n_agents) :
    (envAfter e u).elim True (fun e' =>
      e'.x.getD i default = specEuler e (e.x.getD i default) (specAccel e u i)) := by
  unfold envAfter
  cases hs : step e u with
  | none => trivial
  | some p =>
    dsimp only [Option.map_some', Option.elim]
    obtain ⟨q, hq, rfl⟩ := step_some_iff.mp hs
    obtain ⟨hsh, q', hq', rfl⟩ := stepCore_some_iff.mp hq
    obtain ⟨⟨hx1, -, -⟩, gs, -, haux⟩ := compute_helpers_some_iff.mp hq'
    have hq1x : q'.1.x = integrate e u := by rw [← haux]; rfl
    show q'.1.x.getD i default = _
    rw [hq1x]
    have hiu : i < u.length := by rw [hsh.1]; exact hi
    have hix : i < e.x.length := by rw [hx]; exact hi
    unfold integrate
    rw [getD_map_zip _ default default (0, 0) hix (by unfold clippedCmds; simpa using hiu)]
    have hcmd : (clippedCmds e u).getD i (0, 0) = specAccel e u i := by
      unfold clippedCmds specAccel
      rw [getD_map _ (0, 0) [] hiu]
    rw [hcmd]
    show Agent.mk _ _ _ _ = specEuler e (e.x.getD i default) (specAccel e u i)
    unfold specEuler
    rw [Agent.mk.injEq]
    refine ⟨by ring, by ring, rfl, rfl⟩

/-- Witness for **C8** on the single-agent fixture: the command `(2, -3)` is
clipped to `(1, -1)` and scaled by `action_scalar = 10`. -/
theorem dynamics_semi_implicit_euler_witness :
    (envAfter envT [[2, -3]]).elim True (fun e' =>
      e'.x.getD 0 default = specEuler envT (envT.x.getD 0 default) (specAccel envT [[2, -3]] 0)) :=
  dynamics_semi_implicit_euler envT [[2, -3]] 0 (by decide) (by decide)

/-- **C5.**  Whenever `step` completes, the reward it returns for agent `i`
is exactly `n_targets_obs_per_agent[i] - 0.1 * ‖Δposition_i‖`, where the
count ranges over the targets that were still unobserved at the start of the
step's bookkeeping and lie strictly within `obs_rad²` of agent `i`'s
post-integration position, and `‖Δposition_i‖` is the Euclidean norm of the
agent's position displacement during the step. -/
theorem reward_counts_minus_distance (e : Env) (u : List (List ℚ)) (i : ℕ)
    (hWF : MaskWF e.target_unobserved) (hi : i < e.n_agents) :
    (step e u).elim True (fun p =>
      p.2.2.1.getD i 0
        = (specNTargets e p.1 i : ℝ) - (1 / 10) * specDistTraveled e p.1 i) := by
  cases hs : step e u with
  | none => trivial
  | some p =>
    dsimp only [Option.elim]
    obtain ⟨q, hq, rfl⟩ := step_some_iff.mp hs
    obtain ⟨hsh, q', hq', rfl⟩ := stepCore_some_iff.mp hq
    obtain ⟨⟨hx1, -, -⟩, gs, hgs, haux⟩ := compute_helpers_some_iff.mp hq'
    have hgs2 : pairUp (maskedFlat e.target_x e.target_unobserved) = some gs := hgs
    rw [pairUp_maskedFlat e.target_x e.target_unobserved hWF] at hgs2
    have hgsu : gs = unobservedTargets e := by
      injection hgs2.symm
    have hq1x : q'.1.x = integrate e u := by rw [← haux]; rfl
    have hq2n : q'.2.n_targets_obs_per_agent
        = nTargetsObs (integrate e u) gs e.obs_rad2 := by rw [← haux]; rfl
    have hxint : (integrate e u).length = e.n_agents := hx1
    have hexn : e.n_agents ≤ e.x.length := by
      have : (integrate e u).length ≤ e.x.length := by
        unfold integrate
        rw [List.length_map, List.length_zip]
        exact min_le_left _ _
      rw [hxint] at this
      exact this
    have hii : i < (integrate e u).length := by rw [hxint]; exact hi
    have hisq : i < (sqDisplacements e u).length := by
      unfold sqDisplacements
      rw [List.length_map, List.length_zip]
      exact lt_min hii (lt_of_lt_of_le hi hexn)
    show ((q'.2.n_targets_obs_per_agent.zip (sqDisplacements e u)).map
        (fun r => (r.1 : ℝ) - (1 / 10) * Real.sqrt (r.2 : ℝ))).getD i 0 = _
    rw [getD_map_zip _ 0 0 0 (by rw [hq2n]; unfold nTargetsObs; rw [List.length_map]; exact hii)
      hisq]
    have hnt : q'.2.n_targets_obs_per_agent.getD i 0
        = specNTargets e q'.1 i := by
      rw [hq2n]
      unfold nTargetsObs specNTargets
      rw [getD_map _ 0 default hii, hgsu, hq1x]
    have hsq : (sqDisplacements e u).getD i 0
        = sq ((q'.1.x.getD i default).px - (e.x.getD i default).px)
          + sq ((q'.1.x.getD i default).py - (e.x.getD i default).py) := by
      unfold sqDisplacements
      rw [getD_map_zip _ 0 default default hii (lt_of_lt_of_le hi hexn), hq1x]
    rw [hnt, hsq]
    unfold specDistTraveled
    rfl

/-- Witness for **C5** on the single-agent fixture (zero command: zero
displacement, no target in radius). -/
theorem reward_counts_minus_distance_witness :
    (step envT [[0, 0]]).elim True (fun p =>
      p.2.2.1.getD 0 0
        = (specNTargets envT p.1 0 : ℝ) - (1 / 10) * specDistTraveled envT p.1 0) :=
  reward_counts_minus_distance envT [[0, 0]] 0 (by decide) (by decide)

/-- **C7.**  When fewer unobserved targets remain than `nearest_targets`
(`m < nearest_targets`, including `m = 0`), each agent's target-feature block
of the observation row — the part after the own-velocity pair and the
`4·nearest_agents` neighbor features — consists of the `m` relative-position
pairs of the unobserved targets in non-decreasing order of squared distance,
followed by `nearest_targets - m` zero pairs.  The selection order
`sortedTargets` is a permutation of all `m` unobserved targets and its
squared-distance keys are sorted. -/
theorem target_block_zero_padded (e : Env) (i : ℕ)
    (hWF : MaskWF e.target_unobserved)
    (hm : (unobservedTargets e).length < e.nearest_targets)
    (hi : i < e.n_agents) :
    (compute_helpers e).elim True (fun p =>
      (p.2.state_values.getD i []).drop (2 + 4 * e.nearest_agents)
        = (sortedTargets (e.x.getD i default) (unobservedTargets e)).flatMap
            (fun j => targetPairFeature (e.x.getD i default)
              ((unobservedTargets e).getD j (0, 0)))
          ++ List.replicate (2 * (e.nearest_targets - (unobservedTargets e).length)) 0
      ∧ (sortedTargets (e.x.getD i default) (unobservedTargets e)).Perm
          (List.range (unobservedTargets e).length)
      ∧ List.Sorted (· ≤ ·)
          ((sortedTargets (e.x.getD i default) (unobservedTargets e)).map
            (targetKey (e.x.getD i default) (unobservedTargets e)))) := by
  cases hc : compute_helpers e with
  | none => trivial
  | some p =>
    dsimp only [Option.elim]
    obtain ⟨⟨hx, hk, -⟩, gs, hgs, haux⟩ := compute_helpers_some_iff.mp hc
    have hgs2 := hgs
    rw [pairUp_maskedFlat e.target_x e.target_unobserved hWF] at hgs2
    have hgsu : gs = unobservedTargets e := by injection hgs2.symm
    subst hgsu
    have hsv : p.2.state_values.getD i []
        = [(e.x.getD i default).vx, (e.x.getD i default).vy]
          ++ obsNeigh e.x e.nearest_agents i
          ++ obsTarget (e.x.getD i default) (unobservedTargets e) e.nearest_targets := by
      rw [← haux]
      show ((List.range e.n_agents).map _).getD i [] = _
      rw [getD_map_range _ _ hi]
    have hneigh : (obsNeigh e.x e.nearest_agents i).length = 4 * e.nearest_agents := by
      unfold obsNeigh
      rw [length_flatMap_const (selectedNeighbors e.x e.nearest_agents i)
        (fun j => diff4 (e.x.getD i default) (e.x.getD j default)) 4 (fun a _ => rfl)]
      unfold selectedNeighbors
      rw [List.length_take]
      unfold sortedNeighbors
      rw [List.length_insertionSort, List.length_range, hx]
      rw [min_eq_left hk]
    refine ⟨?_, List.perm_insertionSort _ _, ?_⟩
    · rw [hsv]
      have hpre : ([(e.x.getD i default).vx, (e.x.getD i default).vy]
          ++ obsNeigh e.x e.nearest_agents i).length = 2 + 4 * e.nearest_agents := by
        rw [List.length_append, hneigh]
        rfl
      rw [← hpre, List.drop_left]
      unfold obsTarget nearestTargetsIdx
      rw [if_pos hm, min_eq_right (le_of_lt hm)]
      have hfull : (sortedTargets (e.x.getD i default) (unobservedTargets e)).take
          (unobservedTargets e).length
          = sortedTargets (e.x.getD i default) (unobservedTargets e) := by
        apply List.take_of_length_le
        unfold sortedTargets
        rw [List.length_insertionSort, List.length_range]
      rw [hfull]
      congr 1
      congr 1
      omega
    · unfold sortedTargets
      rw [List.Sorted, List.pairwise_map]
      exact (List.sorted_insertionSort _ _).imp (fun h => rankLe_imp_le _ h)

/-- Witness for **C7**: the single-agent fixture `envT` has
`nearest_targets = 3` and exactly one unobserved target, so the block is one
real pair and two zero pairs. -/
theorem target_block_zero_padded_witness :
    (compute_helpers envT).elim True (fun p =>
      (p.2.state_values.getD 0 []).drop (2 + 4 * envT.nearest_agents)
        = (sortedTargets (envT.x.getD 0 default) (unobservedTargets envT)).flatMap
            (fun j => targetPairFeature (envT.x.getD 0 default)
              ((unobservedTargets envT).getD j (0, 0)))
          ++ List.replicate (2 * (envT.nearest_targets - (unobservedTargets envT).length)) 0
      ∧ (sortedTargets (envT.x.getD 0 default) (unobservedTargets envT)).Perm
          (List.range (unobservedTargets envT).length)
      ∧ List.Sorted (· ≤ ·)
          ((sortedTargets (envT.x.getD 0 default) (unobservedTargets envT)).map
            (targetKey (envT.x.getD 0 default) (unobservedTargets envT)))) :=
  target_block_zero_padded envT 0 (by decide) (by decide) (by decide)

/-- **C10.**  The unobserved-target mask always keeps its two per-target
columns equal: it is built all-`true` by the constructor and by
`params_from_cfg`, `reset` reinstalls the all-`true` mask before running the
bookkeeping, and both `reset` and every `step` preserve column agreement and
the `n_agents²` row count through the masked update, so masking the target
array always gathers whole `(x, y)` pairs (the `reshape((-1, 2))` never
raises: `pairUp` succeeds). -/
theorem mask_columns_agree (e : Env) (a : Cfg) (g : ℕ → ℚ) (u : List (List ℚ))
    (h : MaskWF e.target_unobserved) :
    MaskWF initEnv.target_unobserved
    ∧ MaskWF (params_from_cfg e a).target_unobserved
    ∧ (reset e g).elim True (fun p => MaskWF p.1.target_unobserved)
    ∧ (stepCore e u).elim True (fun p =>
        MaskWF p.1.target_unobserved
        ∧ p.1.target_unobserved.length = e.target_unobserved.length)
    ∧ (pairUp (maskedFlat e.target_x e.target_unobserved)).isSome = true := by
  refine ⟨maskWF_replicate _, maskWF_replicate _, ?_, ?_, ?_⟩
  · cases hr : reset e g with
    | none => trivial
    | some p =>
      exact (compute_helpers_wf_mask _ (maskWF_replicate _) hr).1
  · cases hsc : stepCore e u with
    | none => trivial
    | some p =>
      obtain ⟨-, q, hq, rfl⟩ := stepCore_some_iff.mp hsc
      exact compute_helpers_wf_mask { e with x := integrate e u } h hq
  · rw [pairUp_maskedFlat _ _ h]
    rfl

/-- Witness for **C10** on the single-agent fixture. -/
theorem mask_columns_agree_witness :
    MaskWF initEnv.target_unobserved
    ∧ MaskWF (params_from_cfg envT cfgC2).target_unobserved
    ∧ (reset envT gA).elim True (fun p => MaskWF p.1.target_unobserved)
    ∧ (stepCore envT [[0, 0]]).elim True (fun p =>
        MaskWF p.1.target_unobserved
        ∧ p.1.target_unobserved.length = envT.target_unobserved.length)
    ∧ (pairUp (maskedFlat envT.target_x envT.target_unobserved)).isSome = true :=
  mask_columns_agree envT cfgC2 gA [[0, 0]] (by decide)

end GymFlock
